import Mathlib

/-!
Verification of the TVB model-IR code-generation subsystem and the
cosimulation monitors.

The repository ships the conformance tests of a template-based kernel
generator (`modelir_test.py`), a benchmark driver, and the cosimulation
monitor hierarchy (`cosim_monitors.py`).  Pure helper functions of the
test harness (`_insert_line_numbers`, `_check_match`'s per-step tolerance,
`_eval_cfun_no_delay`, `flow`) and the monitor sampling loops are embedded
directly from the source.  The generator itself (templates, backends, the
built-in model `dfun`) is not part of the source tree; where a claim needs
it, it is modelled from the specification, and each such definition says so
in its doc string.

Machine floating point is modelled by exact rationals: the generated and
reference computations are shown to coincide exactly, hence within every
stated tolerance envelope.
-/

namespace TVB

/-- Modelled from the spec: the symbolic right-hand-side expression language
of a model's drift function ("dfun").  Symbols are state variables, coupling
terms and model parameters; constants and arithmetic are as in the textual
Python/CUDA expressions the templates inline (the missing piece of the
source tree is `tvb.simulator.models` and the backend templates). -/
inductive Expr where
  | const : ℚ → Expr
  | svar : ℕ → Expr
  | cvar : ℕ → Expr
  | par : ℕ → Expr
  | add : Expr → Expr → Expr
  | sub : Expr → Expr → Expr
  | mul : Expr → Expr → Expr
  | div : Expr → Expr → Expr
  | pow : Expr → ℕ → Expr
  deriving DecidableEq, Repr

/-- Scalar evaluation of an expression in environments for state variables,
coupling terms and parameters. -/
def evalS (sv cv pv : ℕ → ℚ) : Expr → ℚ
  | .const q => q
  | .svar i => sv i
  | .cvar i => cv i
  | .par i => pv i
  | .add a b => evalS sv cv pv a + evalS sv cv pv b
  | .sub a b => evalS sv cv pv a - evalS sv cv pv b
  | .mul a b => evalS sv cv pv a * evalS sv cv pv b
  | .div a b => evalS sv cv pv a / evalS sv cv pv b
  | .pow a k => (evalS sv cv pv a) ^ k

/-- Parameter freezing: the array-backend templates substitute the model's
current parameter values as literal constants at build time
(`${par} = ${getattr(model,par)[0]}` in the test templates). -/
def substPar (pv : ℕ → ℚ) : Expr → Expr
  | .const q => .const q
  | .svar i => .svar i
  | .cvar i => .cvar i
  | .par i => .const (pv i)
  | .add a b => .add (substPar pv a) (substPar pv b)
  | .sub a b => .sub (substPar pv a) (substPar pv b)
  | .mul a b => .mul (substPar pv a) (substPar pv b)
  | .div a b => .div (substPar pv a) (substPar pv b)
  | .pow a k => .pow (substPar pv a) k

/-- Modelled from the spec: whole-array ("vectorized NumPy") evaluation of an
expression.  State and coupling symbols stand for per-node arrays of length
`n`; scalars broadcast; arithmetic acts pointwise, exactly as the rendered
NumPy source computes `dX[i] = <rhs>` on arrays. -/
def evalArr (n : ℕ) (sv cv pv : ℕ → List ℚ) : Expr → List ℚ
  | .const q => List.replicate n q
  | .svar i => sv i
  | .cvar i => cv i
  | .par i => pv i
  | .add a b => List.zipWith (· + ·) (evalArr n sv cv pv a) (evalArr n sv cv pv b)
  | .sub a b => List.zipWith (· - ·) (evalArr n sv cv pv a) (evalArr n sv cv pv b)
  | .mul a b => List.zipWith (· * ·) (evalArr n sv cv pv a) (evalArr n sv cv pv b)
  | .div a b => List.zipWith (· / ·) (evalArr n sv cv pv a) (evalArr n sv cv pv b)
  | .pow a k => (evalArr n sv cv pv a).map (· ^ k)

/-- Modelled from the spec: the model descriptor.  It holds the ordered drift
expressions (one per state variable) and, per parameter, the vector of
per-node values — length 1 if the parameter is homogeneous, node count if it
is spatially heterogeneous (`tvb.simulator.models` is not in the source
tree). -/
structure Model where
  dfuns : List Expr
  params : List (List ℚ)
  deriving DecidableEq, Repr

/-- Index of the first occurrence of `p` in a list, as the generated kernels
align a heterogeneous parameter with its row of the spatial-parameter
matrix. -/
def idxOfAux (p : ℕ) : List ℕ → Option ℕ
  | [] => none
  | q :: t => if q = p then some 0 else (idxOfAux p t).map (· + 1)

/-- Indices of the spatially heterogeneous parameters (value vector not of
length 1). -/
def Model.hetIndices (m : Model) : List ℕ :=
  (List.range m.params.length).filter fun p => (m.params.getD p []).length ≠ 1

/-- Modelled from the spec: `spatial_parameter_matrix`, the stacked array of
all heterogeneous parameters' per-node vectors. -/
def Model.spatial_parameter_matrix (m : Model) : List (List ℚ) :=
  m.hetIndices.map fun p => m.params.getD p []

/-- Modelled from the spec: the built-in model `dfun`'s parameter access with
NumPy broadcasting — a length-1 vector broadcasts its single entry to every
node, a heterogeneous vector is indexed by node. -/
def builtinParam (m : Model) (node p : ℕ) : ℚ :=
  if (m.params.getD p []).length = 1 then (m.params.getD p []).getD 0 0
  else (m.params.getD p []).getD node 0

/-- Modelled from the spec: the generated kernels' parameter access — a
homogeneous parameter is frozen to its single value at build time, a
heterogeneous one is read from its row of the spatial-parameter buffer
`parmat` at the current node. -/
def genParam (m : Model) (parmat : List (List ℚ)) (node p : ℕ) : ℚ :=
  match idxOfAux p m.hetIndices with
  | some i => (parmat.getD i []).getD node 0
  | none => (m.params.getD p []).getD 0 0

/-- Modelled from the spec: the built-in (reference, non-generated) model
drift: for each state variable's expression, the vector of its values over
the `n` nodes, evaluated against the state and coupling buffers with
broadcast parameters. -/
def Model.dfun (m : Model) (n : ℕ) (state cX : List (List ℚ)) : List (List ℚ) :=
  m.dfuns.map fun e => (List.range n).map fun j =>
    evalS (fun i => (state.getD i (List.replicate n 0)).getD j 0)
      (fun i => (cX.getD i (List.replicate n 0)).getD j 0)
      (builtinParam m j) e

/-- Modelled from the spec: the array-vectorized ("NumPy") generated backend.
Each drift expression is evaluated as one whole-array operation over the
node dimension; homogeneous parameters are inlined as broadcast scalars and
heterogeneous ones read as rows of `parmat`. -/
def npDfuns (m : Model) (n : ℕ) (state cX parmat : List (List ℚ)) : List (List ℚ) :=
  m.dfuns.map fun e =>
    evalArr n (fun i => state.getD i (List.replicate n 0))
      (fun i => cX.getD i (List.replicate n 0))
      (fun p =>
        match idxOfAux p m.hetIndices with
        | some i => parmat.getD i (List.replicate n 0)
        | none => List.replicate n ((m.params.getD p []).getD 0 0)) e

/-- One row of the scalar-loop backend: sequential iteration over nodes,
evaluating the expression one node at a time. -/
def nbRow (e : Expr) (sv cv : ℕ → ℕ → ℚ) (pv : ℕ → ℕ → ℚ) : ℕ → List ℚ
  | 0 => []
  | j + 1 => nbRow e sv cv pv j ++ [evalS (sv j) (cv j) (pv j) e]

/-- Modelled from the spec: the just-in-time scalar-loop ("Numba") generated
backend — explicit loops over nodes instead of whole-array operations. -/
def nbDfuns (m : Model) (n : ℕ) (state cX parmat : List (List ℚ)) : List (List ℚ) :=
  m.dfuns.map fun e =>
    nbRow e (fun j i => (state.getD i (List.replicate n 0)).getD j 0)
      (fun j i => (cX.getD i (List.replicate n 0)).getD j 0)
      (fun j => genParam m parmat j) n

/-- Modelled from the spec: the work of one GPU thread — thread `tid`
computes the drift of every state variable at node `tid`. -/
def cuThread (m : Model) (n : ℕ) (state cX parmat : List (List ℚ)) (tid : ℕ) : List ℚ :=
  m.dfuns.map fun e =>
    evalS (fun i => (state.getD i (List.replicate n 0)).getD tid 0)
      (fun i => (cX.getD i (List.replicate n 0)).getD tid 0)
      (genParam m parmat tid) e

/-- Modelled from the spec: the GPU generated backend — one thread per node
run in parallel, results gathered into the drift buffer laid out as
state-variable rows over nodes. -/
def cuDfuns (m : Model) (n : ℕ) (state cX parmat : List (List ℚ)) : List (List ℚ) :=
  (List.range m.dfuns.length).map fun i =>
    (List.range n).map fun tid => (cuThread m n state cX parmat tid).getD i 0

/-- The supported generated backends: array-vectorized NumPy, scalar-loop
(Numba) and GPU (CUDA). -/
inductive Backend where
  | np : Backend
  | nb : Backend
  | cu : Backend
  deriving DecidableEq, Repr

/-- Dispatch a drift evaluation to a generated backend. -/
def runBackend : Backend → Model → ℕ → List (List ℚ) → List (List ℚ) → List (List ℚ) → List (List ℚ)
  | .np => npDfuns
  | .nb => nbDfuns
  | .cu => cuDfuns

/-- The acceptance criterion of `numpy.testing.assert_allclose(actual,
desired, rtol, atol)` as the tests invoke it: elementwise
`|actual - desired| <= atol + rtol * |desired|` over the desired buffer's
shape. -/
def allclose (actual desired : List (List ℚ)) (rtol atol : ℚ) : Prop :=
  ∀ i < desired.length, ∀ j < (desired.getD i []).length,
    |(actual.getD i []).getD j 0 - (desired.getD i []).getD j 0|
      ≤ atol + rtol * |(desired.getD i []).getD j 0|

instance allcloseDecidable (actual desired : List (List ℚ)) (rtol atol : ℚ) :
    Decidable (allclose actual desired rtol atol) :=
  decidable_of_iff
    (∀ i < desired.length, ∀ j < (desired.getD i []).length,
      |(actual.getD i []).getD j 0 - (desired.getD i []).getD j 0|
        ≤ atol + rtol * |(desired.getD i []).getD j 0|) Iff.rfl

/-- A small concrete model used to witness the claims: two state variables,
one homogeneous parameter, one coupling term, drift expressions referencing
all three symbol kinds. -/
def demoModel : Model :=
  ⟨[Expr.mul (Expr.sub (Expr.svar 0) (Expr.pow (Expr.svar 0) 3)) (Expr.par 0),
    Expr.add (Expr.cvar 0) (Expr.div (Expr.const 1) (Expr.svar 1))],
   [[(3 : ℚ)]]⟩

/-- A concrete 2-node state buffer. -/
def demoState : List (List ℚ) := [[1, 2], [3, 5]]

/-- A concrete 2-node coupling-input buffer. -/
def demoCX : List (List ℚ) := [[2, 7], [1, 4]]

/-- The per-step acceptance criterion of `TestSimODE._check_match`, from the
source: at step `t` it invokes
`np.testing.assert_allclose(actual[t], expected[t,:,:,0], 2e-5*t*2, 1e-5*t*2)`,
i.e. relative tolerance `2e-5*t*2` and absolute tolerance `1e-5*t*2`. -/
def checkMatchStep (t : ℕ) (actual expected : List (List ℚ)) : Prop :=
  allclose actual expected ((2 : ℚ)/100000 * t * 2) ((1 : ℚ)/100000 * t * 2)

/-- The whole-trajectory check of `TestSimODE._check_match`, from the source:
the per-step criterion applied for every `t` in `range(1, len(actual))`. -/
def checkMatch (expected actual : List (List (List ℚ))) : Prop :=
  ∀ t, 1 ≤ t → t < actual.length →
    checkMatchStep t (actual.getD t []) (expected.getD t [])

/-- Modelled from the spec: the linear no-delay coupling stage of the
network step — for each coupling term and target node, the weighted sum of
the source nodes' states scaled by the coupling parameter `a`. -/
def linCX (a : ℚ) (weights : List (List ℚ)) (n : ℕ) (state : List (List ℚ)) :
    List (List ℚ) :=
  state.map fun row => (List.range n).map fun node =>
    a * ((List.range n).map fun j =>
      (weights.getD j []).getD node 0 * row.getD j 0).sum

/-- Elementwise combination of two buffers of equal shape. -/
def zipWith2D (f : ℚ → ℚ → ℚ) (X Y : List (List ℚ)) : List (List ℚ) :=
  List.zipWith (fun r s => List.zipWith f r s) X Y

/-- Modelled from the spec: one step of the reference (non-generated) Euler
integrator over the coupled network, `state + dt * dfun(state, cX)` with the
coupling input recomputed from the current state each step (no-delay
path). -/
def eulerStepRef (m : Model) (dt a : ℚ) (weights : List (List ℚ)) (n : ℕ)
    (state : List (List ℚ)) : List (List ℚ) :=
  zipWith2D (fun x d => x + dt * d) state (m.dfun n state (linCX a weights n state))

/-- Modelled from the spec: one step of a generated no-delay kernel's time
loop — identical update driven by the generated backend drift. -/
def eulerStepGen (b : Backend) (m : Model) (dt a : ℚ) (weights : List (List ℚ))
    (n : ℕ) (state : List (List ℚ)) : List (List ℚ) :=
  zipWith2D (fun x d => x + dt * d) state
    (runBackend b m n state (linCX a weights n state) m.spatial_parameter_matrix)

/-- Reference state after `k` integration steps. -/
def refStateAt (m : Model) (dt a : ℚ) (weights : List (List ℚ)) (n : ℕ)
    (state : List (List ℚ)) (k : ℕ) : List (List ℚ) :=
  (eulerStepRef m dt a weights n)^[k] state

/-- Generated-kernel state after `k` integration steps. -/
def genStateAt (b : Backend) (m : Model) (dt a : ℚ) (weights : List (List ℚ))
    (n : ℕ) (state : List (List ℚ)) (k : ℕ) : List (List ℚ) :=
  (eulerStepGen b m dt a weights n)^[k] state

/-- Reference trajectory over `nt` recorded steps. -/
def refTraj (m : Model) (dt a : ℚ) (weights : List (List ℚ)) (n : ℕ)
    (state : List (List ℚ)) (nt : ℕ) : List (List (List ℚ)) :=
  (List.range nt).map (refStateAt m dt a weights n state)

/-- Generated-kernel trajectory over `nt` recorded steps. -/
def genTraj (b : Backend) (m : Model) (dt a : ℚ) (weights : List (List ℚ))
    (n : ℕ) (state : List (List ℚ)) (nt : ℕ) : List (List (List ℚ)) :=
  (List.range nt).map (genStateAt b m dt a weights n state)

/-- Well-formed state buffer: one row per state variable, each of node
count length. -/
def WFState (m : Model) (n : ℕ) (state : List (List ℚ)) : Prop :=
  state.length = m.dfuns.length ∧ ∀ r ∈ state, r.length = n

instance wfStateDecidable (m : Model) (n : ℕ) (state : List (List ℚ)) :
    Decidable (WFState m n state) :=
  decidable_of_iff
    (state.length = m.dfuns.length ∧ ∀ r ∈ state, r.length = n) Iff.rfl

/-- A concrete 2x2 weight matrix used by witnesses. -/
def demoWeights : List (List ℚ) := [[1, 2], [3, 4]]

/-- The pairwise pre-expression broadcast of `TestCoupling._eval_cfun_no_delay`,
from the source: `cfun.pre(x_i+x_j*0, x_j+x_i*0)` with
`x_i = X.reshape((nsvar,1,nnode))` and `x_j = X.reshape((nsvar,nnode,1))`,
giving the 3-D array whose `[s][a][b]` entry is `pre(X[s][b], X[s][a])`. -/
def preBroadcast (pre : ℚ → ℚ → ℚ) (n : ℕ) (X : List (List ℚ)) :
    List (List (List ℚ)) :=
  X.map fun row => (List.range n).map fun a => (List.range n).map fun b =>
    pre (row.getD b 0) (row.getD a 0)

/-- The `weights *` stage, from the source: the weight matrix broadcasts over
the state-variable axis and multiplies the pre-expression array
elementwise. -/
def weightsMul (weights : List (List ℚ)) (P : List (List (List ℚ))) :
    List (List (List ℚ)) :=
  P.map fun plane =>
    List.zipWith (fun wrow prow => List.zipWith (· * ·) wrow prow) weights plane

/-- The `.sum(axis=1)` stage, from the source: summation over the source-node
axis. -/
def sumRows (n : ℕ) (plane : List (List ℚ)) : List ℚ :=
  plane.foldr (fun r acc => List.zipWith (· + ·) r acc) (List.replicate n 0)

/-- `TestCoupling._eval_cfun_no_delay`, from the source: broadcast the pre
expression over all node pairs, multiply by the weights, sum over the source
axis, and apply the post expression elementwise. -/
def evalCfunNoDelay (pre : ℚ → ℚ → ℚ) (post : ℚ → ℚ)
    (weights X : List (List ℚ)) : List (List ℚ) :=
  ((weightsMul weights (preBroadcast pre (X.getD 0 []).length X)).map
    (sumRows (X.getD 0 []).length)).map fun r => r.map post

/-- The closed form named by the claim: at each target node `b`,
`post` of the sum over source nodes `a` of
`weight[source a, target b] * pre(state[target b], state[source a])`. -/
def closedCfun (pre : ℚ → ℚ → ℚ) (post : ℚ → ℚ) (weights X : List (List ℚ))
    (n : ℕ) : List (List ℚ) :=
  X.map fun row => (List.range n).map fun b =>
    post (((List.range n).map fun a =>
      (weights.getD a []).getD b 0 * pre (row.getD b 0) (row.getD a 0)).sum)

/-- The running accumulation of the generated coupling loop:
`gx += w[i][j] * pre(x_i, x_j)` over source nodes `j`. -/
def cfunAccum (pre : ℚ → ℚ → ℚ) (wrow row : List ℚ) (xi : ℚ) : ℕ → ℚ
  | 0 => 0
  | j + 1 => cfunAccum pre wrow row xi j + wrow.getD j 0 * pre xi (row.getD j 0)

/-- Modelled from the spec: a generated coupling kernel (the
`{np,nb,cu}-coupling.mako` templates are not in the source tree).  For each
target node it accumulates the weighted pre expression over source nodes
using its weights argument — which the calling convention supplies
transposed — then applies the post expression. -/
def couplingKernel (pre : ℚ → ℚ → ℚ) (post : ℚ → ℚ) (n : ℕ)
    (wT X : List (List ℚ)) : List (List ℚ) :=
  X.map fun row => (List.range n).map fun i =>
    post (cfunAccum pre (wT.getD i []) row (row.getD i 0) n)

/-- The transpose the kernel invocation contract applies to the stored
connectivity weights. -/
def transposeM (w : List (List ℚ)) (n : ℕ) : List (List ℚ) :=
  (List.range n).map fun i => (List.range n).map fun j => (w.getD j []).getD i 0

/-- `source.split('\n')` over character lists: splitting on newline, keeping
empty segments, as Python's `str.split` does. -/
def splitNl : List Char → List (List Char)
  | [] => [[]]
  | ch :: t =>
      match splitNl t, decide (ch = Char.ofNat 10) with
      | r, true => [] :: r
      | [], false => [[ch]]
      | h :: r, false => (ch :: h) :: r

/-- `'\n'.join(lines)` over character lists. -/
def joinNl : List (List Char) → List Char
  | [] => []
  | [l] => l
  | l :: t => l ++ Char.ofNat 10 :: joinNl t

/-- A decimal digit character. -/
def digitChar (d : ℕ) : Char :=
  match d % 10 with
  | 0 => '0' | 1 => '1' | 2 => '2' | 3 => '3' | 4 => '4'
  | 5 => '5' | 6 => '6' | 7 => '7' | 8 => '8' | _ => '9'

/-- Decimal digits of a natural number, most significant first (fuel-based
recursion on the number of digits). -/
def natDecimalAux : ℕ → ℕ → List Char
  | 0, _ => []
  | fuel + 1, k =>
      if k < 10 then [digitChar k]
      else natDecimalAux fuel (k / 10) ++ [digitChar (k % 10)]

/-- Decimal representation of a natural number. -/
def natDecimal (k : ℕ) : List Char := natDecimalAux (k + 1) k

/-- The `'%03d' % nu` format of the source: the decimal representation
left-padded with zeros to at least three characters. -/
def pad3 (k : ℕ) : List Char :=
  List.replicate (3 - (natDecimal k).length) '0' ++ natDecimal k

/-- `MakoUtilMix._insert_line_numbers`, from the source: split on newline,
prepend `'%03d\t' % line_number` (numbering from 1) to each line, rejoin
with newlines. -/
def insertLineNumbers (source : List Char) : List Char :=
  joinNl (List.zipWith (fun nu li => pad3 nu ++ '\t' :: li)
    (List.range' 1 (splitNl source).length) (splitNl source))

/-- A small concrete source text, two lines long. -/
def demoSource : List Char := ['a', 'b', Char.ofNat 10, 'c']

/-- Modelled from the spec: a template body is a sequence of literal source
chunks and `${symbol}` substitution directives (the Mako engine itself is an
external collaborator; the spec prescribes an expression-substitution engine
with strict-undefined-symbol semantics). -/
inductive TmplTok where
  | lit : List Char → TmplTok
  | sub : String → TmplTok
  deriving DecidableEq

/-- Lookup of a symbol in the content mapping passed to the renderer. -/
def lookupContent : List (String × List Char) → String → Option (List Char)
  | [], _ => none
  | (k, v) :: t, name => if k = name then some v else lookupContent t name

/-- The error taxonomy of the build pipeline: template errors (undefined
symbol, with the line-numbered partially rendered source), host compile
errors, device compile errors (each with the line-numbered rendered source),
and a missing entry point. -/
inductive BuildError where
  | templateError : String → List Char → BuildError
  | hostCompileError : List Char → BuildError
  | deviceCompileError : List Char → BuildError
  | missingEntry : String → BuildError
  deriving DecidableEq

/-- Whether an error is a template error (as opposed to any compile
error). -/
def BuildError.isTemplateErr : BuildError → Bool
  | .templateError _ _ => true
  | _ => false

/-- Modelled from the spec: strict-undefined rendering.  Tokens are emitted
left to right; a substitution whose symbol is absent from the content
mapping aborts with a template error exposing the line-numbered partially
rendered source (per `MakoUtilMix._render_template`, which prints the
annotated source before re-raising). -/
def renderAux (c : List (String × List Char)) :
    List TmplTok → List Char → Except BuildError (List Char)
  | [], acc => .ok acc
  | .lit s :: t, acc => renderAux c t (acc ++ s)
  | .sub name :: t, acc =>
      match lookupContent c name with
      | some v => renderAux c t (acc ++ v)
      | none => .error (.templateError name (insertLineNumbers acc))

/-- Render a template against a content mapping. -/
def render (t : List TmplTok) (c : List (String × List Char)) :
    Except BuildError (List Char) :=
  renderAux c t []

/-- A compiled device module: a map from entry-point names to kernels. -/
structure DeviceModule (K : Type) where
  getFunction : String → Option K

/-- `MakoUtilMix._build_py_func`, from the source (with the host `exec` as
an abstract compiler): render, execute the source in a fresh namespace —
printing the line-numbered source on failure — and extract the entry
point. -/
def buildPyFunc {K : Type} (hostCompile : List Char → Option (String → Option K))
    (t : List TmplTok) (c : List (String × List Char)) (name : String) :
    Except BuildError K :=
  match render t c with
  | .error e => .error e
  | .ok source =>
      match hostCompile source with
      | none => .error (.hostCompileError (insertLineNumbers source))
      | some globalsNs =>
          match globalsNs name with
          | some f => .ok f
          | none => .error (.missingEntry name)

/-- `MakoUtilMix._build_cu_func`, from the source (with pycuda's
`SourceModule` as an abstract device compiler): render, compile for the
device — printing the line-numbered source on `CompileError` — and extract
the kernel. -/
def buildCuFunc {K : Type} (deviceCompile : List Char → Option (DeviceModule K))
    (t : List TmplTok) (c : List (String × List Char)) (name : String) :
    Except BuildError K :=
  match render t c with
  | .error e => .error e
  | .ok source =>
      match deviceCompile source with
      | none => .error (.deviceCompileError (insertLineNumbers source))
      | some mod =>
          match mod.getFunction name with
          | some f => .ok f
          | none => .error (.missingEntry name)

/-- A template referencing the unbound symbol `drift`. -/
def demoTmpl : List TmplTok :=
  [TmplTok.lit ['d', 'x', ' ', '=', ' '], TmplTok.sub "drift"]

/-- A content mapping that does not bind `drift`. -/
def demoContent : List (String × List Char) := [("dt", ['0'])]

/-- A device compiler that rejects every source. -/
def demoRejectCompile : List Char → Option (DeviceModule ℕ) := fun _ => none

/-- A template that renders successfully to the single-character source
`k`. -/
def demoTmplOk : List TmplTok := [TmplTok.lit ['k']]

/-- The drift expression `(x - x**3/3 + y)*3` of the two-state test model,
as the template content supplies it. -/
def driftXExpr : Expr :=
  .mul (.add (.sub (.svar 0) (.div (.pow (.svar 0) 3) (.const 3))) (.svar 1))
    (.const 3)

/-- The drift expression `(1.01 - x) / 3` of the two-state test model. -/
def driftYExpr : Expr :=
  .div (.sub (.const (101/100)) (.svar 0)) (.const 3)

/-- Elementwise scalar multiple of a 2-D buffer. -/
def scalarMul2D (c : ℚ) (A : List (List ℚ)) : List (List ℚ) :=
  A.map fun r => r.map fun v => c * v

/-- Elementwise sum of two 2-D buffers. -/
def add2D (X Y : List (List ℚ)) : List (List ℚ) := zipWith2D (· + ·) X Y

/-- The drift stage of `TestPyCUDABasics.flow`, from the source:
`x, y = X; dX[0] = (x - x**3/3 + y)*3; dX[1] = (1.01 - x) / 3` as
whole-array NumPy operations. -/
def flowDrift (X : List (List ℚ)) : List (List ℚ) :=
  [List.zipWith (fun xv yv => (xv - xv ^ 3 / 3 + yv) * 3) (X.getD 0 []) (X.getD 1 []),
   (X.getD 0 []).map fun xv => (101/100 - xv) / 3]

/-- `TestPyCUDABasics.flow`'s state update, from the source: the
Euler-Maruyama step `X += dt * dX + sqrt_dt * 0.1 * Z` with `dt = 0.1`,
noise intensity `0.1`, and the same noise draw `Z`; `sqrt_dt` is the
inlined value of `math.sqrt(0.1)`. -/
def flow (sqrtDt : ℚ) (X Z : List (List ℚ)) : List (List ℚ) :=
  add2D X (add2D (scalarMul2D (1/10) (flowDrift X))
    (scalarMul2D (sqrtDt * (1/10)) Z))

/-- Modelled from the spec: the drift stage of the generated kernel built
from the template of `TestMako.test_template` — the same two drift
expressions substituted into the rendered source and evaluated as
whole-array operations. -/
def flowGenDrift (n : ℕ) (X : List (List ℚ)) : List (List ℚ) :=
  [evalArr n (fun i => X.getD i (List.replicate n 0)) (fun _ => List.replicate n 0)
     (fun _ => List.replicate n 0) driftXExpr,
   evalArr n (fun i => X.getD i (List.replicate n 0)) (fun _ => List.replicate n 0)
     (fun _ => List.replicate n 0) driftYExpr]

/-- Modelled from the spec: the generated kernel's Euler-Maruyama update,
with `${dt}`, `${math.sqrt(dt)}` and `${sigma}` inlined as the same literal
values the reference uses. -/
def flowGen (sqrtDt : ℚ) (n : ℕ) (X Z : List (List ℚ)) : List (List ℚ) :=
  add2D X (add2D (scalarMul2D (1/10) (flowGenDrift n X))
    (scalarMul2D (sqrtDt * (1/10)) Z))

/-- A concrete 2 x 10 state buffer. -/
def demoX10 : List (List ℚ) :=
  [[1, 2, 3, 4, 5, 6, 7, 8, 9, 10], [0, 1, 0, 1, 0, 1, 0, 1, 0, 1]]

/-- A concrete 2 x 10 noise draw. -/
def demoZ10 : List (List ℚ) :=
  [[1, -1, 1, -1, 1, -1, 1, -1, 1, -1], [2, 0, 2, 0, 2, 0, 2, 0, 2, 0]]

/-- The sampling loop shared by the cosimulation monitors, from the source:
fold over the step window, appending the (time, value) pair returned by the
per-step sample when it is not `None`. -/
def sampleLoop {τ : Type} (f : ℕ → Option (ℚ × τ)) (start n : ℕ) :
    List ℚ × List τ :=
  (List.range' start n).foldl
    (fun acc step =>
      match f step with
      | some tv => (acc.1 ++ [tv.1], acc.2 ++ [tv.2])
      | none => acc)
    ([], [])

/-- `CosimMonitor.get_sample`, from the source: loop over
`range(start_step, start_step + n_steps)`; the state is the full history
query when `cosim` is true and its `[0]` sub-array otherwise; the per-step
sample (`super().sample`, the underlying `Raw`/`RawVoi` monitor from
`tvb.simulator.monitors`, not in the source tree) is abstract; `None`
results are skipped; returns the collected times and values arrays. -/
def CosimMonitor.get_sample {σ τ : Type} (sample2 : ℕ → σ → Option (ℚ × τ))
    (query : ℕ → σ) (sub0 : σ → σ) (cosim : Bool) (start n : ℕ) :
    List ℚ × List τ :=
  sampleLoop
    (fun step => sample2 step (if cosim then query step else sub0 (query step)))
    start n

/-- `CosimMonitorFromCoupling.get_sample`, from the source: the same loop
with the future coupling value `self.coupling(step, history)` as the
sampled state. -/
def CosimMonitorFromCoupling.get_sample {σ H τ : Type}
    (sample2 : ℕ → σ → Option (ℚ × τ)) (coupling : ℕ → H → σ) (history : H)
    (start n : ℕ) : List ℚ × List τ :=
  sampleLoop (fun step => sample2 step (coupling step history)) start n

/-- `RawDelayed.sample`, from the source: delegates to
`get_sample(start_step, n_steps, history, cosim=False)`, ignoring the
`cosim_history` argument. -/
def RawDelayed.sample {σ τ : Type} (sample2 : ℕ → σ → Option (ℚ × τ))
    (sub0 : σ → σ) (start n : ℕ) (cosim_history history : ℕ → σ) :
    List ℚ × List τ :=
  CosimMonitor.get_sample sample2 history sub0 false start n

/-- `RawVoiDelayed.sample`, from the source: same delegation as
`RawDelayed.sample` over the `RawVoi` per-step monitor. -/
def RawVoiDelayed.sample {σ τ : Type} (sample2 : ℕ → σ → Option (ℚ × τ))
    (sub0 : σ → σ) (start n : ℕ) (cosim_history history : ℕ → σ) :
    List ℚ × List τ :=
  CosimMonitor.get_sample sample2 history sub0 false start n

/-- `RawCosim.sample`, from the source: delegates to
`get_sample(start_step, n_steps, cosim_history, cosim=True)`, ignoring the
`history` argument. -/
def RawCosim.sample {σ τ : Type} (sample2 : ℕ → σ → Option (ℚ × τ))
    (sub0 : σ → σ) (start n : ℕ) (cosim_history history : ℕ → σ) :
    List ℚ × List τ :=
  CosimMonitor.get_sample sample2 cosim_history sub0 true start n

/-- The shape the claim ascribes to a monitor sampling result: two arrays of
equal length at most `n`, whose paired entries come from an increasing list
of exactly those steps in the window where the per-step sample is not
`None`. -/
def SampleSpec {τ : Type} (f : ℕ → Option (ℚ × τ)) (start n : ℕ)
    (r : List ℚ × List τ) : Prop :=
  r.1.length = r.2.length ∧ r.1.length ≤ n ∧
  ∃ ss : List ℕ, ss.Pairwise (· < ·) ∧
    (∀ s ∈ ss, start ≤ s ∧ s < start + n ∧ (f s).isSome = true) ∧
    (∀ s, start ≤ s → s < start + n → (f s).isSome = true → s ∈ ss) ∧
    r.1.zip r.2 = ss.filterMap f ∧ r.1.length = ss.length

theorem evalS_substPar (sv cv pv pv' : ℕ → ℚ) (e : Expr) :
    evalS sv cv pv' (substPar pv e) = evalS sv cv pv e := by
  induction e <;> simp [substPar, evalS, *]

theorem zipWith_map_range {α : Type} (h : ℚ → ℚ → ℚ) (f g : α → ℚ) :
    ∀ r : List α, List.zipWith h (r.map f) (r.map g) = r.map fun x => h (f x) (g x) := by
  intro r
  induction r with
  | nil => rfl
  | cons a t ih => simp [List.zipWith, ih]

theorem map_getD_range (l : List ℚ) : (List.range l.length).map (fun j => l.getD j 0) = l := by
  apply List.ext_get
  · simp
  · intro i h1 h2
    simp [List.getD_eq_getElem?_getD, List.getElem?_eq_getElem h2]

/-- Whole-array evaluation agrees pointwise with scalar evaluation when every
array in the environment has length `n`. -/
theorem evalArr_eq_map_evalS (n : ℕ) (sv cv pv : ℕ → List ℚ)
    (hsv : ∀ i, (sv i).length = n) (hcv : ∀ i, (cv i).length = n)
    (hpv : ∀ i, (pv i).length = n) (e : Expr) :
    evalArr n sv cv pv e =
      (List.range n).map fun j =>
        evalS (fun i => (sv i).getD j 0) (fun i => (cv i).getD j 0)
          (fun i => (pv i).getD j 0) e := by
  induction e with
  | const q =>
      show List.replicate n q = (List.range n).map fun _ => q
      rw [List.map_const', List.length_range]
  | svar i =>
      show sv i = (List.range n).map fun j => (sv i).getD j 0
      rw [← hsv i, map_getD_range]
  | cvar i =>
      show cv i = (List.range n).map fun j => (cv i).getD j 0
      rw [← hcv i, map_getD_range]
  | par i =>
      show pv i = (List.range n).map fun j => (pv i).getD j 0
      rw [← hpv i, map_getD_range]
  | add a b iha ihb => rw [evalArr, iha, ihb, zipWith_map_range]; rfl
  | sub a b iha ihb => rw [evalArr, iha, ihb, zipWith_map_range]; rfl
  | mul a b iha ihb => rw [evalArr, iha, ihb, zipWith_map_range]; rfl
  | div a b iha ihb => rw [evalArr, iha, ihb, zipWith_map_range]; rfl
  | pow a k ih => rw [evalArr, ih, List.map_map]; rfl

theorem idxOfAux_some {p : ℕ} :
    ∀ {l : List ℕ} {i : ℕ}, idxOfAux p l = some i →
      ∃ h : i < l.length, l.get ⟨i, h⟩ = p := by
  intro l
  induction l with
  | nil => intro i h; simp [idxOfAux] at h
  | cons q t ih =>
      intro i h
      by_cases hq : q = p
      · simp [idxOfAux, hq] at h
        subst h
        exact ⟨by simp, hq⟩
      · simp [idxOfAux, hq] at h
        obtain ⟨j, hj, rfl⟩ := h
        obtain ⟨hlt, hget⟩ := ih hj
        exact ⟨by simpa using hlt, by simpa using hget⟩

theorem idxOfAux_none {p : ℕ} :
    ∀ {l : List ℕ}, idxOfAux p l = none → p ∉ l := by
  intro l
  induction l with
  | nil => intro _; simp
  | cons q t ih =>
      intro h
      by_cases hq : q = p
      · simp [idxOfAux, hq] at h
      · simp [idxOfAux, hq] at h
        simp [ih h, Ne.symm hq]

theorem getD_of_length_le {α : Type} {l : List α} {i : ℕ} {d : α} (h : l.length ≤ i) :
    l.getD i d = d := by
  rw [List.getD_eq_getElem?_getD, List.getElem?_eq_none h]
  rfl

theorem getD_of_lt {α : Type} {l : List α} {i : ℕ} {d : α} (h : i < l.length) :
    l.getD i d = l.get ⟨i, h⟩ := by
  rw [List.getD_eq_getElem?_getD, List.getElem?_eq_getElem h]
  rfl

theorem getD_replicate {n j : ℕ} {c d : ℚ} (h : j < n) :
    (List.replicate n c).getD j d = c := by
  rw [getD_of_lt (by simpa using h)]
  simp

theorem getD_mem_or_default {α : Type} (l : List α) (i : ℕ) (d : α) :
    l.getD i d ∈ l ∨ l.getD i d = d := by
  by_cases h : i < l.length
  · exact Or.inl (by rw [getD_of_lt h]; exact List.get_mem _ _ _)
  · exact Or.inr (getD_of_length_le (Nat.le_of_not_lt h))

theorem evalS_congr {sv sv' cv cv' pv pv' : ℕ → ℚ}
    (h1 : ∀ i, sv i = sv' i) (h2 : ∀ i, cv i = cv' i) (h3 : ∀ i, pv i = pv' i)
    (e : Expr) : evalS sv cv pv e = evalS sv' cv' pv' e := by
  have e1 : sv = sv' := funext h1
  have e2 : cv = cv' := funext h2
  have e3 : pv = pv' := funext h3
  rw [e1, e2, e3]

theorem mem_hetIndices {m : Model} {p : ℕ} :
    p ∈ m.hetIndices ↔ p < m.params.length ∧ (m.params.getD p []).length ≠ 1 := by
  simp [Model.hetIndices, List.mem_filter, List.mem_range]

/-- A heterogeneous-parameter row located through the index alignment is
exactly that parameter's value vector in the model. -/
theorem spatial_getD {m : Model} {p i : ℕ} (h : idxOfAux p m.hetIndices = some i)
    (d : List ℚ) : m.spatial_parameter_matrix.getD i d = m.params.getD p [] := by
  obtain ⟨hlt, hget⟩ := idxOfAux_some h
  have hget' : m.hetIndices[i] = p := by simpa using hget
  have hlen : i < m.spatial_parameter_matrix.length := by
    simpa [Model.spatial_parameter_matrix] using hlt
  rw [getD_of_lt hlen, List.get_eq_getElem]
  simp [Model.spatial_parameter_matrix, hget']

/-- The generated kernels' parameter access, fed the model's own
spatial-parameter matrix, agrees with the built-in broadcast access at every
node and parameter. -/
theorem genParam_eq_builtin (m : Model) (node p : ℕ) :
    genParam m m.spatial_parameter_matrix node p = builtinParam m node p := by
  rw [genParam]
  cases h : idxOfAux p m.hetIndices with
  | some i =>
      show (m.spatial_parameter_matrix.getD i []).getD node 0 = builtinParam m node p
      have hmem : p ∈ m.hetIndices := by
        obtain ⟨hlt, hget⟩ := idxOfAux_some h
        exact hget ▸ List.get_mem _ _ _
      have hne : (m.params.getD p []).length ≠ 1 := (mem_hetIndices.mp hmem).2
      rw [spatial_getD h, builtinParam, if_neg hne]
  | none =>
      show (m.params.getD p []).getD 0 0 = builtinParam m node p
      have hnm : p ∉ m.hetIndices := idxOfAux_none h
      by_cases hp : p < m.params.length
      · have h1 : (m.params.getD p []).length = 1 := by
          by_contra hne
          exact hnm (mem_hetIndices.mpr ⟨hp, hne⟩)
        rw [builtinParam, if_pos h1]
      · have hnil : m.params.getD p [] = [] :=
          getD_of_length_le (Nat.le_of_not_lt hp)
        rw [builtinParam, hnil]
        simp

theorem npParam_pointwise (m : Model) (n j p : ℕ) (hj : j < n) :
    ((match idxOfAux p m.hetIndices with
      | some i => m.spatial_parameter_matrix.getD i (List.replicate n 0)
      | none => List.replicate n ((m.params.getD p []).getD 0 0)) : List ℚ).getD j 0
      = genParam m m.spatial_parameter_matrix j p := by
  rw [genParam]
  cases h : idxOfAux p m.hetIndices with
  | some i =>
      show (m.spatial_parameter_matrix.getD i (List.replicate n 0)).getD j 0
        = (m.spatial_parameter_matrix.getD i []).getD j 0
      rw [spatial_getD h, spatial_getD h]
  | none =>
      show (List.replicate n ((m.params.getD p []).getD 0 0)).getD j 0
        = (m.params.getD p []).getD 0 0
      exact getD_replicate hj

theorem npDfuns_eq_dfun (m : Model) (n : ℕ) (state cX : List (List ℚ))
    (hstate : ∀ r ∈ state, r.length = n) (hcX : ∀ r ∈ cX, r.length = n)
    (hpar : ∀ r ∈ m.params, r.length = 1 ∨ r.length = n) :
    npDfuns m n state cX m.spatial_parameter_matrix = m.dfun n state cX := by
  rw [npDfuns, Model.dfun]
  apply List.map_congr_left
  intro e _
  rw [evalArr_eq_map_evalS]
  · apply List.map_congr_left
    intro j hj
    have hjn : j < n := List.mem_range.mp hj
    refine evalS_congr (fun i => rfl) (fun i => rfl) (fun p => ?_) e
    rw [npParam_pointwise m n j p hjn, genParam_eq_builtin]
  · intro i
    rcases getD_mem_or_default state i (List.replicate n 0) with h | h
    · exact hstate _ h
    · rw [h]; exact List.length_replicate n 0
  · intro i
    rcases getD_mem_or_default cX i (List.replicate n 0) with h | h
    · exact hcX _ h
    · rw [h]; exact List.length_replicate n 0
  · intro p
    cases h : idxOfAux p m.hetIndices with
    | some i =>
        show (m.spatial_parameter_matrix.getD i (List.replicate n 0)).length = n
        rw [spatial_getD h]
        have hmem : p ∈ m.hetIndices := by
          obtain ⟨hlt, hget⟩ := idxOfAux_some h
          exact hget ▸ List.get_mem _ _ _
        obtain ⟨hp, hne⟩ := mem_hetIndices.mp hmem
        have hrow : m.params.getD p [] ∈ m.params := by
          rw [getD_of_lt hp]; exact List.get_mem _ _ _
        rcases hpar _ hrow with h1 | h1
        · exact absurd h1 hne
        · exact h1
    | none =>
        show (List.replicate n ((m.params.getD p []).getD 0 0)).length = n
        exact List.length_replicate _ _

theorem nbRow_eq_map (e : Expr) (sv cv pv : ℕ → ℕ → ℚ) :
    ∀ n, nbRow e sv cv pv n = (List.range n).map fun j => evalS (sv j) (cv j) (pv j) e := by
  intro n
  induction n with
  | zero => rfl
  | succ k ih => rw [nbRow, ih, List.range_succ, List.map_append]; rfl

theorem nbDfuns_eq_dfun (m : Model) (n : ℕ) (state cX : List (List ℚ)) :
    nbDfuns m n state cX m.spatial_parameter_matrix = m.dfun n state cX := by
  rw [nbDfuns, Model.dfun]
  apply List.map_congr_left
  intro e _
  rw [nbRow_eq_map]
  apply List.map_congr_left
  intro j _
  exact evalS_congr (fun i => rfl) (fun i => rfl) (fun p => genParam_eq_builtin m j p) e

theorem cuDfuns_eq_dfun (m : Model) (n : ℕ) (state cX : List (List ℚ)) :
    cuDfuns m n state cX m.spatial_parameter_matrix = m.dfun n state cX := by
  rw [cuDfuns, Model.dfun]
  apply List.ext_get
  · simp
  · intro i h1 h2
    simp only [List.get_eq_getElem, List.getElem_map, List.getElem_range]
    apply List.map_congr_left
    intro tid _
    rw [cuThread]
    have hi : i < m.dfuns.length := by simpa using h1
    rw [getD_of_lt (by simpa using hi)]
    simp only [List.get_eq_getElem, List.getElem_map]
    exact evalS_congr (fun _ => rfl) (fun _ => rfl)
      (fun p => genParam_eq_builtin m tid p) _

theorem runBackend_eq_dfun (b : Backend) (m : Model) (n : ℕ)
    (state cX : List (List ℚ))
    (hstate : ∀ r ∈ state, r.length = n) (hcX : ∀ r ∈ cX, r.length = n)
    (hpar : ∀ r ∈ m.params, r.length = 1 ∨ r.length = n) :
    runBackend b m n state cX m.spatial_parameter_matrix = m.dfun n state cX := by
  cases b with
  | np => exact npDfuns_eq_dfun m n state cX hstate hcX hpar
  | nb => exact nbDfuns_eq_dfun m n state cX
  | cu => exact cuDfuns_eq_dfun m n state cX

theorem allclose_of_eq {actual desired : List (List ℚ)} {rtol atol : ℚ}
    (heq : actual = desired) (hr : 0 ≤ rtol) (ha : 0 ≤ atol) :
    allclose actual desired rtol atol := by
  intro i hi j hj
  rw [heq, sub_self, abs_zero]
  positivity

/-- C1: for every fixed model, state buffer and coupling-input buffer (the
coupling function and connectivity enter drift evaluation only through the
coupling-input buffer), the drift values produced by any two supported
backends (array-vectorized Python, scalar-loop, GPU), and by any generated
kernel against the built-in model dfun, agree within absolute tolerance
1e-6 and relative tolerance 1e-5. -/
theorem c1_backends_drift_agree (b1 b2 : Backend) (m : Model) (n : ℕ)
    (state cX : List (List ℚ))
    (hstate : ∀ r ∈ state, r.length = n) (hcX : ∀ r ∈ cX, r.length = n)
    (hpar : ∀ r ∈ m.params, r.length = 1 ∨ r.length = n) :
    allclose (runBackend b1 m n state cX m.spatial_parameter_matrix)
        (runBackend b2 m n state cX m.spatial_parameter_matrix)
        ((1 : ℚ)/100000) ((1 : ℚ)/1000000) ∧
      allclose (runBackend b1 m n state cX m.spatial_parameter_matrix)
        (m.dfun n state cX) ((1 : ℚ)/100000) ((1 : ℚ)/1000000) := by
  have h1 := runBackend_eq_dfun b1 m n state cX hstate hcX hpar
  have h2 := runBackend_eq_dfun b2 m n state cX hstate hcX hpar
  constructor
  · exact allclose_of_eq (h1.trans h2.symm) (by norm_num) (by norm_num)
  · exact allclose_of_eq h1 (by norm_num) (by norm_num)

/-- Witness for C1 at a concrete model and buffers, array backend against
GPU backend. -/
theorem c1_backends_drift_agree_witness :
    ((∀ r ∈ demoState, r.length = 2) ∧ (∀ r ∈ demoCX, r.length = 2) ∧
      (∀ r ∈ demoModel.params, r.length = 1 ∨ r.length = 2)) ∧
    (allclose (runBackend Backend.np demoModel 2 demoState demoCX
          demoModel.spatial_parameter_matrix)
        (runBackend Backend.cu demoModel 2 demoState demoCX
          demoModel.spatial_parameter_matrix)
        ((1 : ℚ)/100000) ((1 : ℚ)/1000000) ∧
      allclose (runBackend Backend.np demoModel 2 demoState demoCX
          demoModel.spatial_parameter_matrix)
        (demoModel.dfun 2 demoState demoCX) ((1 : ℚ)/100000) ((1 : ℚ)/1000000)) :=
  ⟨⟨by decide, by decide, by decide⟩,
    c1_backends_drift_agree Backend.np Backend.cu demoModel 2 demoState demoCX
      (by decide) (by decide) (by decide)⟩

theorem linCX_rows (a : ℚ) (weights : List (List ℚ)) (n : ℕ)
    (state : List (List ℚ)) : ∀ r ∈ linCX a weights n state, r.length = n := by
  intro r hr
  rw [linCX, List.mem_map] at hr
  obtain ⟨row, _, rfl⟩ := hr
  simp

theorem dfun_rows (m : Model) (n : ℕ) (state cX : List (List ℚ)) :
    ∀ r ∈ m.dfun n state cX, r.length = n := by
  intro r hr
  rw [Model.dfun, List.mem_map] at hr
  obtain ⟨e, _, rfl⟩ := hr
  simp

theorem eulerStepRef_wf (m : Model) (dt a : ℚ) (weights : List (List ℚ))
    (n : ℕ) (state : List (List ℚ)) (h : WFState m n state) :
    WFState m n (eulerStepRef m dt a weights n state) := by
  obtain ⟨hlen, hrows⟩ := h
  constructor
  · rw [eulerStepRef, zipWith2D, List.length_zipWith, Model.dfun,
      List.length_map, hlen, min_self]
  · intro r hr
    rw [eulerStepRef, zipWith2D] at hr
    rw [List.mem_iff_getElem] at hr
    obtain ⟨i, hi, rfl⟩ := hr
    rw [List.getElem_zipWith, List.length_zipWith]
    rw [List.length_zipWith] at hi
    have h1 : i < state.length := lt_of_lt_of_le hi (by simp [min_le_left])
    have h2 : i < (m.dfun n state (linCX a weights n state)).length :=
      lt_of_lt_of_le hi (by simp [min_le_right])
    rw [hrows _ (List.getElem_mem h1),
      dfun_rows m n state _ _ (List.getElem_mem h2), min_self]

theorem eulerStepGen_eq_ref (b : Backend) (m : Model) (dt a : ℚ)
    (weights : List (List ℚ)) (n : ℕ) (state : List (List ℚ))
    (h : WFState m n state)
    (hpar : ∀ r ∈ m.params, r.length = 1 ∨ r.length = n) :
    eulerStepGen b m dt a weights n state = eulerStepRef m dt a weights n state := by
  rw [eulerStepGen, eulerStepRef,
    runBackend_eq_dfun b m n state _ h.2 (linCX_rows a weights n state) hpar]

theorem genStateAt_eq_ref (b : Backend) (m : Model) (dt a : ℚ)
    (weights : List (List ℚ)) (n : ℕ) (state : List (List ℚ))
    (h : WFState m n state)
    (hpar : ∀ r ∈ m.params, r.length = 1 ∨ r.length = n) :
    ∀ k, genStateAt b m dt a weights n state k = refStateAt m dt a weights n state k ∧
      WFState m n (refStateAt m dt a weights n state k) := by
  intro k
  induction k with
  | zero => exact ⟨rfl, h⟩
  | succ j ih =>
      obtain ⟨heq, hwf⟩ := ih
      constructor
      · rw [genStateAt, Function.iterate_succ_apply', refStateAt,
          Function.iterate_succ_apply']
        rw [genStateAt] at heq
        rw [heq, eulerStepGen_eq_ref b m dt a weights n _ hwf hpar]
        rfl
      · rw [refStateAt, Function.iterate_succ_apply']
        exact eulerStepRef_wf m dt a weights n _ hwf

theorem getD_map_range {α : Type} (f : ℕ → α) (d : α) {t nt : ℕ} (h : t < nt) :
    ((List.range nt).map f).getD t d = f t := by
  rw [getD_of_lt (by simpa using h)]
  simp

/-- C2 counterexample: the per-step check of `_check_match` accepts a step
whose deviation exceeds the claimed envelope of `2e-5*t` absolute plus
`1e-5*t` relative — at step 1, reference value 1, actual value
`1 + 5e-5`, the code's check (rtol `2e-5*t*2`, atol `1e-5*t*2`) passes while
the claimed bound `3e-5` is exceeded. -/
theorem c2_claimed_envelope_counterexample :
    checkMatchStep 1 [[1 + 1/20000]] [[1]] ∧
      ¬ allclose [[1 + 1/20000]] [[1]] ((1 : ℚ)/100000 * 1) ((2 : ℚ)/100000 * 1) := by
  have habs : |((1 : ℚ) + 1/20000) - 1| = 1/20000 := by
    rw [abs_of_nonneg] <;> norm_num
  constructor
  · rw [checkMatchStep]
    intro i hi j hj
    simp only [List.length_cons, List.length_nil] at hi
    have hi0 : i = 0 := by omega
    subst hi0
    simp only [List.getD_cons_zero, List.length_cons, List.length_nil] at hj
    have hj0 : j = 0 := by omega
    subst hj0
    simp only [List.getD_cons_zero]
    rw [habs, abs_one]
    norm_num
  · intro hcl
    have hb := hcl 0 (by simp) 0 (by simp)
    simp only [List.getD_cons_zero] at hb
    rw [habs, abs_one] at hb
    norm_num at hb

/-- C2 (amended): the per-step tolerance `_check_match` enforces at step `t`
is `2e-5*t` absolute and `4e-5*t` relative (the code passes `2e-5*t*2` as
rtol and `1e-5*t*2` as atol to the allclose check), and the generated
no-delay kernel's full-loop trajectory from the same initial state does
satisfy that check against the reference integrator at every step
`t >= 1`. -/
theorem c2_traj_matches_amended (b : Backend) (m : Model) (dt a : ℚ)
    (weights : List (List ℚ)) (n : ℕ) (state : List (List ℚ)) (nt : ℕ)
    (h : WFState m n state)
    (hpar : ∀ r ∈ m.params, r.length = 1 ∨ r.length = n) :
    (∀ (t : ℕ) (act exp : List (List ℚ)),
        checkMatchStep t act exp ↔
          allclose act exp ((4 : ℚ)/100000 * t) ((2 : ℚ)/100000 * t)) ∧
      checkMatch (refTraj m dt a weights n state nt)
        (genTraj b m dt a weights n state nt) := by
  constructor
  · intro t act exp
    rw [checkMatchStep,
      show ((2 : ℚ)/100000 * t * 2) = (4 : ℚ)/100000 * t from by ring,
      show ((1 : ℚ)/100000 * t * 2) = (2 : ℚ)/100000 * t from by ring]
  · intro t ht hlt
    have hnt : t < nt := by simpa [genTraj] using hlt
    rw [genTraj, getD_map_range _ _ hnt, refTraj, getD_map_range _ _ hnt,
      (genStateAt_eq_ref b m dt a weights n state h hpar t).1]
    exact allclose_of_eq rfl (by positivity) (by positivity)

/-- Witness for the amended C2 at a concrete model, weights and initial
state, over 3 recorded steps of the scalar-loop backend. -/
theorem c2_traj_matches_amended_witness :
    (WFState demoModel 2 demoState ∧
      (∀ r ∈ demoModel.params, r.length = 1 ∨ r.length = 2)) ∧
    ((∀ (t : ℕ) (act exp : List (List ℚ)),
        checkMatchStep t act exp ↔
          allclose act exp ((4 : ℚ)/100000 * t) ((2 : ℚ)/100000 * t)) ∧
      checkMatch (refTraj demoModel (1/100) (1/2) demoWeights 2 demoState 3)
        (genTraj Backend.nb demoModel (1/100) (1/2) demoWeights 2 demoState 3)) :=
  ⟨⟨by decide, by decide⟩,
    c2_traj_matches_amended Backend.nb demoModel (1/100) (1/2) demoWeights 2
      demoState 3 (by decide) (by decide)⟩

theorem cfunAccum_eq_sum (pre : ℚ → ℚ → ℚ) (wrow row : List ℚ) (xi : ℚ) :
    ∀ k, cfunAccum pre wrow row xi k =
      ((List.range k).map fun j => wrow.getD j 0 * pre xi (row.getD j 0)).sum := by
  intro k
  induction k with
  | zero => rfl
  | succ j ih => rw [cfunAccum, ih, List.range_succ, List.map_append, List.sum_append]; simp

theorem zipWith_left_getD {α β γ : Type} (f : α → β → γ) (w : List α) (d : α)
    (g : ℕ → β) (n : ℕ) (hw : w.length = n) :
    List.zipWith f w ((List.range n).map g) =
      (List.range n).map fun a => f (w.getD a d) (g a) := by
  apply List.ext_get
  · simp [hw]
  · intro i h1 h2
    have hi : i < n := by simpa using h2
    simp only [List.get_eq_getElem, List.getElem_zipWith, List.getElem_map,
      List.getElem_range]
    rw [getD_of_lt (by omega : i < w.length)]
    rfl

theorem sumRows_length (n : ℕ) :
    ∀ plane : List (List ℚ), (∀ r ∈ plane, r.length = n) →
      (sumRows n plane).length = n := by
  intro plane
  induction plane with
  | nil => intro _; simp [sumRows]
  | cons r t ih =>
      intro h
      have ht := ih fun s hs => h s (List.mem_cons_of_mem r hs)
      rw [sumRows, List.foldr_cons]
      rw [List.length_zipWith, h r (List.mem_cons_self r t)]
      rw [sumRows] at ht
      rw [ht, min_self]

theorem sumRows_getD (n : ℕ) {j : ℕ} (hj : j < n) :
    ∀ plane : List (List ℚ), (∀ r ∈ plane, r.length = n) →
      (sumRows n plane).getD j 0 = (plane.map fun r => r.getD j 0).sum := by
  intro plane
  induction plane with
  | nil => intro _; simp [sumRows, getD_replicate hj]
  | cons r t ih =>
      intro h
      have ht := ih fun s hs => h s (List.mem_cons_of_mem r hs)
      have hlt : (sumRows n t).length = n :=
        sumRows_length n t fun s hs => h s (List.mem_cons_of_mem r hs)
      have hrl : r.length = n := h r (List.mem_cons_self r t)
      rw [sumRows, List.foldr_cons]
      have hjz : j < (List.zipWith (· + ·) r
          (t.foldr (fun r acc => List.zipWith (· + ·) r acc) (List.replicate n 0))).length := by
        rw [List.length_zipWith, hrl]
        rw [sumRows] at hlt
        rw [hlt, min_self]
        exact hj
      rw [getD_of_lt hjz, List.get_eq_getElem, List.getElem_zipWith]
      rw [List.map_cons, List.sum_cons]
      congr 1
      · rw [getD_of_lt (by omega : j < r.length)]
        simp
      · rw [← ht, sumRows, getD_of_lt (by rw [sumRows] at hlt; omega)]
        simp

theorem sumRows_eq_map (n : ℕ) (plane : List (List ℚ))
    (h : ∀ r ∈ plane, r.length = n) :
    sumRows n plane = (List.range n).map fun b => (plane.map fun r => r.getD b 0).sum := by
  apply List.ext_get
  · simp [sumRows_length n plane h]
  · intro i h1 h2
    have hi : i < n := by simpa using h2
    rw [← getD_of_lt h1, sumRows_getD n hi plane h, List.get_eq_getElem]
    simp

/-- C3: for every coupling function with pure pre and post expressions,
weight matrix and state buffer, the coupling computed by a generated kernel
(called with the transposed weights, per the invocation contract) at each
target node equals the closed form
`post(sum over sources a of weight[a, target] * pre(state[target], state[a]))`,
and the test oracle `_eval_cfun_no_delay` computes exactly the same closed
form. -/
theorem c3_coupling_closed_form (pre : ℚ → ℚ → ℚ) (post : ℚ → ℚ)
    (weights X : List (List ℚ)) (n : ℕ)
    (hn : (X.getD 0 []).length = n)
    (hw : weights.length = n) (hwr : ∀ r ∈ weights, r.length = n) :
    couplingKernel pre post n (transposeM weights n) X = closedCfun pre post weights X n ∧
      evalCfunNoDelay pre post weights X = closedCfun pre post weights X n := by
  constructor
  · rw [couplingKernel, closedCfun]
    apply List.map_congr_left
    intro row _
    apply List.map_congr_left
    intro i hi
    have hin : i < n := List.mem_range.mp hi
    congr 1
    rw [cfunAccum_eq_sum]
    rw [transposeM, getD_map_range _ [] hin]
    apply congrArg List.sum
    apply List.map_congr_left
    intro j hj
    have hjn : j < n := List.mem_range.mp hj
    rw [getD_map_range _ 0 hjn]
  · rw [evalCfunNoDelay, hn, weightsMul, preBroadcast, List.map_map, List.map_map,
      List.map_map]
    rw [closedCfun]
    apply List.map_congr_left
    intro row _
    simp only [Function.comp_apply]
    rw [zipWith_left_getD _ weights [] _ n hw]
    have hinner : ∀ a ∈ List.range n,
        List.zipWith (· * ·) (weights.getD a [])
            ((List.range n).map fun b => pre (row.getD b 0) (row.getD a 0))
          = (List.range n).map fun b =>
              (weights.getD a []).getD b 0 * pre (row.getD b 0) (row.getD a 0) := by
      intro a ha
      have han : a < n := List.mem_range.mp ha
      have hm : weights.getD a [] ∈ weights := by
        rw [getD_of_lt (by omega : a < weights.length)]
        exact List.get_mem _ _ _
      exact zipWith_left_getD _ _ 0 _ n (hwr _ hm)
    rw [List.map_congr_left hinner]
    rw [sumRows_eq_map n _ (by
      intro r hr
      rw [List.mem_map] at hr
      obtain ⟨a, _, rfl⟩ := hr
      simp)]
    rw [List.map_map]
    apply List.map_congr_left
    intro b hb
    have hbn : b < n := List.mem_range.mp hb
    simp only [Function.comp_apply]
    congr 1
    rw [List.map_map]
    apply congrArg List.sum
    apply List.map_congr_left
    intro a _
    simp only [Function.comp_apply]
    rw [getD_map_range _ 0 hbn]

/-- Witness for C3: a concrete nonlinear pre/post pair, the demo weights and
state, two nodes. -/
theorem c3_coupling_closed_form_witness :
    ((demoState.getD 0 []).length = 2 ∧ demoWeights.length = 2 ∧
      (∀ r ∈ demoWeights, r.length = 2)) ∧
    (couplingKernel (fun xi xj => xj - xi) (fun g => g * 2) 2
          (transposeM demoWeights 2) demoState
        = closedCfun (fun xi xj => xj - xi) (fun g => g * 2) demoWeights demoState 2 ∧
      evalCfunNoDelay (fun xi xj => xj - xi) (fun g => g * 2) demoWeights demoState
        = closedCfun (fun xi xj => xj - xi) (fun g => g * 2) demoWeights demoState 2) :=
  ⟨⟨by decide, by decide, by decide⟩,
    c3_coupling_closed_form (fun xi xj => xj - xi) (fun g => g * 2) demoWeights
      demoState 2 (by decide) (by decide) (by decide)⟩

theorem splitNl_ne_nil (s : List Char) : splitNl s ≠ [] := by
  induction s with
  | nil => simp [splitNl]
  | cons ch t ih =>
      rw [splitNl]
      rcases hr : splitNl t with _ | ⟨h, r⟩
      · exact absurd hr ih
      · by_cases hch : ch = Char.ofNat 10 <;> simp [hch]

theorem splitNl_no_newline (s : List Char) :
    ∀ x ∈ splitNl s, Char.ofNat 10 ∉ x := by
  induction s with
  | nil => intro x hx; simp [splitNl] at hx; simp [hx]
  | cons ch t ih =>
      intro x hx
      rw [splitNl] at hx
      rcases hr : splitNl t with _ | ⟨h, r⟩
      · exact absurd hr (splitNl_ne_nil t)
      · rw [hr] at hx
        by_cases hch : ch = Char.ofNat 10
        · rw [decide_eq_true hch] at hx
          rcases List.mem_cons.mp hx with rfl | hx2
          · simp
          · exact ih x (hr ▸ hx2)
        · rw [decide_eq_false hch] at hx
          rcases List.mem_cons.mp hx with rfl | hx2
          · intro hmem
            rcases List.mem_cons.mp hmem with heq | hmem2
            · exact hch heq.symm
            · exact ih h (hr ▸ List.mem_cons_self h r) hmem2
          · exact ih x (hr ▸ List.mem_cons_of_mem h hx2)

theorem splitNl_single {x : List Char} (hx : Char.ofNat 10 ∉ x) :
    splitNl x = [x] := by
  induction x with
  | nil => rfl
  | cons c t ih =>
      have hc : ¬ c = Char.ofNat 10 := fun h => hx (h ▸ List.mem_cons_self c t)
      have ht : Char.ofNat 10 ∉ t := fun h => hx (List.mem_cons_of_mem c h)
      rw [splitNl, ih ht]
      simp [hc]

theorem splitNl_append {x : List Char} (hx : Char.ofNat 10 ∉ x) (s : List Char) :
    splitNl (x ++ s) =
      (x ++ (splitNl s).headD []) :: (splitNl s).tail := by
  induction x with
  | nil =>
      rcases hr : splitNl s with _ | ⟨h, r⟩
      · exact absurd hr (splitNl_ne_nil s)
      · simp [hr]
  | cons c t ih =>
      have hc : ¬ c = Char.ofNat 10 := fun h => hx (h ▸ List.mem_cons_self c t)
      have ht : Char.ofNat 10 ∉ t := fun h => hx (List.mem_cons_of_mem c h)
      rw [List.cons_append, splitNl, ih ht]
      simp [decide_eq_false hc]

theorem splitNl_joinNl :
    ∀ xs : List (List Char), xs ≠ [] → (∀ x ∈ xs, Char.ofNat 10 ∉ x) →
      splitNl (joinNl xs) = xs := by
  intro xs
  induction xs with
  | nil => intro h _; exact absurd rfl h
  | cons x tl ih =>
      intro _ hnn
      rcases tl with _ | ⟨y, tl2⟩
      · exact splitNl_single (hnn x (List.mem_cons_self x []))
      · have hih := ih (List.cons_ne_nil y tl2)
          (fun z hz => hnn z (List.mem_cons_of_mem x hz))
        have hjoin : joinNl (x :: y :: tl2) = x ++ Char.ofNat 10 :: joinNl (y :: tl2) := rfl
        rw [hjoin, splitNl_append (hnn x (List.mem_cons_self x _))]
        rw [splitNl, hih]
        simp

theorem pad3_no_newline (k : ℕ) : Char.ofNat 10 ∉ pad3 k := by
  have hdig : ∀ fuel n, Char.ofNat 10 ∉ natDecimalAux fuel n := by
    intro fuel
    induction fuel with
    | zero => intro n; simp [natDecimalAux]
    | succ f ih =>
        intro n
        rw [natDecimalAux]
        have hdc : ∀ d, digitChar d ≠ Char.ofNat 10 := by
          intro d
          rw [digitChar]
          split <;> decide
        by_cases hn : n < 10
        · simp only [if_pos hn]
          intro hmem
          rcases List.mem_cons.mp hmem with heq | h2
          · exact hdc n heq.symm
          · simp at h2
        · simp only [if_neg hn]
          intro hmem
          rcases List.mem_append.mp hmem with h1 | h2
          · exact ih (n / 10) h1
          · rcases List.mem_cons.mp h2 with heq | h3
            · exact hdc (n % 10) heq.symm
            · simp at h3
  intro hmem
  rcases List.mem_append.mp hmem with h1 | h2
  · have := List.eq_of_mem_replicate h1
    simp at this
  · exact hdig _ _ h2

/-- C8: `_insert_line_numbers` preserves the number of lines, and its k-th
line (1-based) is the three-digit zero-padded decimal of k, a tab, then the
k-th input line unchanged. -/
theorem c8_insert_line_numbers (s : List Char) :
    (splitNl (insertLineNumbers s)).length = (splitNl s).length ∧
    ∀ k, k < (splitNl s).length →
      (splitNl (insertLineNumbers s)).getD k [] =
        pad3 (k + 1) ++ '\t' :: (splitNl s).getD k [] := by
  have hsplit : splitNl (insertLineNumbers s) =
      List.zipWith (fun nu li => pad3 nu ++ '\t' :: li)
        (List.range' 1 (splitNl s).length) (splitNl s) := by
    rw [insertLineNumbers]
    apply splitNl_joinNl
    · apply List.ne_nil_of_length_pos
      rw [List.length_zipWith, List.length_range', min_self]
      exact List.length_pos.mpr (splitNl_ne_nil s)
    · intro x hx
      rw [List.mem_iff_getElem] at hx
      obtain ⟨i, hi, rfl⟩ := hx
      rw [List.getElem_zipWith]
      intro hmem
      rcases List.mem_append.mp hmem with h1 | h2
      · exact pad3_no_newline _ h1
      · rcases List.mem_cons.mp h2 with heq | h3
        · exact absurd heq.symm (by decide)
        · exact splitNl_no_newline s _ (List.getElem_mem _) h3
  constructor
  · rw [hsplit, List.length_zipWith, List.length_range', min_self]
  · intro k hk
    have hklt : k < (List.zipWith (fun nu li => pad3 nu ++ '\t' :: li)
        (List.range' 1 (splitNl s).length) (splitNl s)).length := by
      rw [List.length_zipWith, List.length_range', min_self]
      exact hk
    rw [hsplit, getD_of_lt hklt, List.get_eq_getElem, List.getElem_zipWith,
      getD_of_lt hk, List.get_eq_getElem]
    simp [List.getElem_range', Nat.add_comm]

/-- Witness for C8: the second line of the numbered demo source is
`002<tab>c`. -/
theorem c8_insert_line_numbers_witness :
    1 < (splitNl demoSource).length ∧
      (splitNl (insertLineNumbers demoSource)).getD 1 [] =
        pad3 2 ++ '\t' :: (splitNl demoSource).getD 1 [] :=
  ⟨by decide, (c8_insert_line_numbers demoSource).2 1 (by decide)⟩

theorem renderAux_error_shape (c : List (String × List Char)) :
    ∀ (tks : List TmplTok) (acc : List Char) (e : BuildError),
      renderAux c tks acc = .error e →
        ∃ name src0, e = .templateError name (insertLineNumbers src0) := by
  intro tks
  induction tks with
  | nil => intro acc e h; simp [renderAux] at h
  | cons tok tl ih =>
      intro acc e h
      cases tok with
      | lit s =>
          rw [renderAux] at h
          exact ih _ e h
      | sub name =>
          rw [renderAux] at h
          cases hl : lookupContent c name with
          | some v => rw [hl] at h; exact ih _ e h
          | none =>
              rw [hl] at h
              simp only [Except.error.injEq] at h
              exact ⟨name, acc, h.symm⟩

theorem renderAux_missing (c : List (String × List Char)) :
    ∀ (tks : List TmplTok) (acc : List Char),
      (∃ name, TmplTok.sub name ∈ tks ∧ lookupContent c name = none) →
      ∃ e, renderAux c tks acc = .error e := by
  intro tks
  induction tks with
  | nil => intro acc ⟨name, hmem, _⟩; simp at hmem
  | cons tok tl ih =>
      intro acc ⟨name, hmem, hnone⟩
      cases tok with
      | lit s =>
          rw [renderAux]
          apply ih
          refine ⟨name, ?_, hnone⟩
          rcases List.mem_cons.mp hmem with heq | h2
          · exact absurd heq (by simp)
          · exact h2
      | sub name2 =>
          rw [renderAux]
          cases hl : lookupContent c name2 with
          | some v =>
              apply ih
              refine ⟨name, ?_, hnone⟩
              rcases List.mem_cons.mp hmem with heq | h2
              · exfalso
                have : name = name2 := by injection heq
                rw [this, hl] at hnone
                exact Option.noConfusion hnone
              · exact h2
          | none => exact ⟨_, rfl⟩

theorem renderAux_total (c : List (String × List Char)) :
    ∀ (tks : List TmplTok) (acc : List Char),
      (∀ name, TmplTok.sub name ∈ tks → (lookupContent c name).isSome = true) →
      ∃ out, renderAux c tks acc = .ok out := by
  intro tks
  induction tks with
  | nil => intro acc _; exact ⟨acc, rfl⟩
  | cons tok tl ih =>
      intro acc hall
      cases tok with
      | lit s =>
          rw [renderAux]
          exact ih _ fun name hm => hall name (List.mem_cons_of_mem _ hm)
      | sub name2 =>
          rw [renderAux]
          cases hl : lookupContent c name2 with
          | some v => exact ih _ fun name hm => hall name (List.mem_cons_of_mem _ hm)
          | none =>
              exfalso
              have := hall name2 (List.mem_cons_self _ _)
              rw [hl] at this
              simp at this

/-- C4: rendering a template that references a symbol absent from the
content mapping fails with a template error — never a silent blank
substitution — which is distinct from any compile error and carries the
line-numbered partially rendered source; when every referenced symbol is
bound, rendering succeeds. -/
theorem c4_template_strict_undefined (t : List TmplTok)
    (c : List (String × List Char)) :
    ((∃ name, TmplTok.sub name ∈ t ∧ lookupContent c name = none) →
      ∃ name ann, render t c = .error (.templateError name ann) ∧
        ∃ src0, ann = insertLineNumbers src0) ∧
    (∀ e, render t c = .error e → e.isTemplateErr = true) ∧
    ((∀ name, TmplTok.sub name ∈ t → (lookupContent c name).isSome = true) →
      ∃ out, render t c = .ok out) := by
  refine ⟨?_, ?_, ?_⟩
  · intro hmiss
    obtain ⟨e, he⟩ := renderAux_missing c t [] hmiss
    obtain ⟨name, src0, rfl⟩ := renderAux_error_shape c t [] e he
    exact ⟨name, insertLineNumbers src0, he, src0, rfl⟩
  · intro e he
    obtain ⟨name, src0, rfl⟩ := renderAux_error_shape c t [] e he
    rfl
  · intro hall
    exact renderAux_total c t [] hall

/-- Witness for C4: rendering the demo template against the demo content
fails with a line-numbered template error. -/
theorem c4_template_strict_undefined_witness :
    (∃ name, TmplTok.sub name ∈ demoTmpl ∧ lookupContent demoContent name = none) ∧
    (∃ name ann, render demoTmpl demoContent = .error (.templateError name ann) ∧
      ∃ src0, ann = insertLineNumbers src0) :=
  ⟨⟨"drift", by decide, by decide⟩,
    (c4_template_strict_undefined demoTmpl demoContent).1
      ⟨"drift", by decide, by decide⟩⟩

/-- C5: when the device compiler rejects the rendered source, the GPU
builder fails with a device-compile error — a kind distinct from host
compile and template errors — carrying the line-numbered generated source
and producing no callable; a build yields a fully callable kernel (render,
device compile and entry-point lookup all succeeded) or fails entirely with
an error. -/
theorem c5_device_compile_failure {K : Type}
    (deviceCompile : List Char → Option (DeviceModule K))
    (t : List TmplTok) (c : List (String × List Char)) (name : String) :
    (∀ source, render t c = .ok source → deviceCompile source = none →
      buildCuFunc deviceCompile t c name =
        .error (.deviceCompileError (insertLineNumbers source))) ∧
    (∀ ann ann' : List Char,
      BuildError.deviceCompileError ann ≠ BuildError.hostCompileError ann' ∧
      (BuildError.deviceCompileError ann).isTemplateErr = false) ∧
    (∀ k, buildCuFunc deviceCompile t c name = .ok k →
      ∃ source mod, render t c = .ok source ∧ deviceCompile source = some mod ∧
        mod.getFunction name = some k) ∧
    ((∃ k, buildCuFunc deviceCompile t c name = .ok k) ∨
      (∃ e, buildCuFunc deviceCompile t c name = .error e)) := by
  refine ⟨?_, ?_, ?_, ?_⟩
  · intro source hr hd
    simp only [buildCuFunc, hr, hd]
  · intro ann ann'
    exact ⟨fun h => BuildError.noConfusion h, rfl⟩
  · intro k hk
    cases hr : render t c with
    | error e => simp [buildCuFunc, hr] at hk
    | ok source =>
        cases hd : deviceCompile source with
        | none => simp [buildCuFunc, hr, hd] at hk
        | some mod =>
            cases hf : mod.getFunction name with
            | none => simp [buildCuFunc, hr, hd, hf] at hk
            | some f =>
                simp only [buildCuFunc, hr, hd, hf, Except.ok.injEq] at hk
                exact ⟨source, mod, rfl, hd, by rw [hf, hk]⟩
  · cases hb : buildCuFunc deviceCompile t c name with
    | error e => exact Or.inr ⟨e, rfl⟩
    | ok k => exact Or.inl ⟨k, rfl⟩

/-- Witness for C5: building the demo template with the rejecting device
compiler fails with a device-compile error over the line-numbered source. -/
theorem c5_device_compile_failure_witness :
    render demoTmplOk [] = .ok ['k'] ∧
      buildCuFunc demoRejectCompile demoTmplOk [] "kernel" =
        .error (.deviceCompileError (insertLineNumbers ['k'])) :=
  ⟨rfl, (c5_device_compile_failure demoRejectCompile demoTmplOk [] "kernel").1
    ['k'] rfl rfl⟩

theorem hetIndices_nil_of_hom (m : Model) (hhom : ∀ r ∈ m.params, r.length = 1) :
    m.hetIndices = [] := by
  rw [List.eq_nil_iff_forall_not_mem]
  intro p hp
  obtain ⟨hlt, hne⟩ := mem_hetIndices.mp hp
  exact hne (hhom _ (by rw [getD_of_lt hlt]; exact List.get_mem _ _ _))

theorem frozen_eq_builtin (m : Model) (node p : ℕ)
    (hhom : ∀ r ∈ m.params, r.length = 1) :
    (m.params.getD p []).getD 0 0 = builtinParam m node p := by
  by_cases hp : p < m.params.length
  · have h1 : (m.params.getD p []).length = 1 :=
      hhom _ (by rw [getD_of_lt hp]; exact List.get_mem _ _ _)
    rw [builtinParam, if_pos h1]
  · have hnil : m.params.getD p [] = [] := getD_of_length_le (Nat.le_of_not_lt hp)
    rw [builtinParam, hnil]
    simp

theorem genParam_hom (m : Model) (parmat : List (List ℚ)) (node p : ℕ)
    (hhom : ∀ r ∈ m.params, r.length = 1) :
    genParam m parmat node p = builtinParam m node p := by
  have hhet := hetIndices_nil_of_hom m hhom
  simp only [genParam, hhet, idxOfAux]
  exact frozen_eq_builtin m node p hhom

theorem npDfuns_hom (m : Model) (n : ℕ) (state cX parmat : List (List ℚ))
    (hhom : ∀ r ∈ m.params, r.length = 1)
    (hstate : ∀ r ∈ state, r.length = n) (hcX : ∀ r ∈ cX, r.length = n) :
    npDfuns m n state cX parmat = m.dfun n state cX := by
  have hhet := hetIndices_nil_of_hom m hhom
  rw [npDfuns, Model.dfun]
  apply List.map_congr_left
  intro e _
  rw [evalArr_eq_map_evalS]
  · apply List.map_congr_left
    intro j hj
    have hjn : j < n := List.mem_range.mp hj
    refine evalS_congr (fun i => rfl) (fun i => rfl) (fun p => ?_) e
    simp only [hhet, idxOfAux]
    rw [getD_replicate hjn]
    exact frozen_eq_builtin m j p hhom
  · intro i
    rcases getD_mem_or_default state i (List.replicate n 0) with h | h
    · exact hstate _ h
    · rw [h]; exact List.length_replicate n 0
  · intro i
    rcases getD_mem_or_default cX i (List.replicate n 0) with h | h
    · exact hcX _ h
    · rw [h]; exact List.length_replicate n 0
  · intro p
    simp only [hhet, idxOfAux]
    exact List.length_replicate _ _

theorem nbDfuns_hom (m : Model) (n : ℕ) (state cX parmat : List (List ℚ))
    (hhom : ∀ r ∈ m.params, r.length = 1) :
    nbDfuns m n state cX parmat = m.dfun n state cX := by
  rw [nbDfuns, Model.dfun]
  apply List.map_congr_left
  intro e _
  rw [nbRow_eq_map]
  apply List.map_congr_left
  intro j _
  exact evalS_congr (fun i => rfl) (fun i => rfl)
    (fun p => genParam_hom m parmat j p hhom) e

theorem cuDfuns_hom (m : Model) (n : ℕ) (state cX parmat : List (List ℚ))
    (hhom : ∀ r ∈ m.params, r.length = 1) :
    cuDfuns m n state cX parmat = m.dfun n state cX := by
  rw [cuDfuns, Model.dfun]
  apply List.ext_get
  · simp
  · intro i h1 h2
    simp only [List.get_eq_getElem, List.getElem_map, List.getElem_range]
    apply List.map_congr_left
    intro tid _
    rw [cuThread]
    have hi : i < m.dfuns.length := by simpa using h1
    rw [getD_of_lt (by simpa using hi)]
    simp only [List.get_eq_getElem, List.getElem_map]
    exact evalS_congr (fun _ => rfl) (fun _ => rfl)
      (fun p => genParam_hom m parmat tid p hhom) _

theorem runBackend_hom (b : Backend) (m : Model) (n : ℕ)
    (state cX parmat : List (List ℚ))
    (hhom : ∀ r ∈ m.params, r.length = 1)
    (hstate : ∀ r ∈ state, r.length = n) (hcX : ∀ r ∈ cX, r.length = n) :
    runBackend b m n state cX parmat = m.dfun n state cX := by
  cases b with
  | np => exact npDfuns_hom m n state cX parmat hhom hstate hcX
  | nb => exact nbDfuns_hom m n state cX parmat hhom
  | cu => exact cuDfuns_hom m n state cX parmat hhom

/-- C6: for a fully homogeneous model every backend accepts any placeholder
spatial-parameter buffer — empty or a one-element dummy — and computes the
same drift as the model evaluated directly, unaffected by the buffer's
contents. -/
theorem c6_homogeneous_dummy_parmat (b : Backend) (m : Model) (n : ℕ)
    (state cX parmat1 parmat2 : List (List ℚ))
    (hhom : ∀ r ∈ m.params, r.length = 1)
    (hstate : ∀ r ∈ state, r.length = n) (hcX : ∀ r ∈ cX, r.length = n) :
    runBackend b m n state cX parmat1 = runBackend b m n state cX parmat2 ∧
      runBackend b m n state cX parmat1 = m.dfun n state cX := by
  have h1 := runBackend_hom b m n state cX parmat1 hhom hstate hcX
  have h2 := runBackend_hom b m n state cX parmat2 hhom hstate hcX
  exact ⟨h1.trans h2.symm, h1⟩

/-- Witness for C6: the homogeneous demo model on the GPU backend, with the
empty buffer versus the one-element dummy buffer `[[0]]`. -/
theorem c6_homogeneous_dummy_parmat_witness :
    ((∀ r ∈ demoModel.params, r.length = 1) ∧
      (∀ r ∈ demoState, r.length = 2) ∧ (∀ r ∈ demoCX, r.length = 2)) ∧
    (runBackend Backend.cu demoModel 2 demoState demoCX [] =
        runBackend Backend.cu demoModel 2 demoState demoCX [[0]] ∧
      runBackend Backend.cu demoModel 2 demoState demoCX [] =
        demoModel.dfun 2 demoState demoCX) :=
  ⟨⟨by decide, by decide, by decide⟩,
    c6_homogeneous_dummy_parmat Backend.cu demoModel 2 demoState demoCX [] [[0]]
      (by decide) (by decide) (by decide)⟩

theorem getD_congr_default {α : Type} {l : List α} {i : ℕ} (h : i < l.length)
    (d1 d2 : α) : l.getD i d1 = l.getD i d2 := by
  rw [getD_of_lt h, getD_of_lt h]

theorem zipWith_eq_map_range (f : ℚ → ℚ → ℚ) {a b : List ℚ} {n : ℕ}
    (ha : a.length = n) (hb : b.length = n) :
    List.zipWith f a b = (List.range n).map fun j => f (a.getD j 0) (b.getD j 0) := by
  apply List.ext_get
  · simp [ha, hb]
  · intro i h1 h2
    have hin : i < n := by simpa using h2
    simp only [List.get_eq_getElem, List.getElem_zipWith, List.getElem_map,
      List.getElem_range]
    rw [getD_of_lt (by omega : i < a.length), getD_of_lt (by omega : i < b.length)]
    rfl

theorem flowGenDrift_eq (X : List (List ℚ)) (hXlen : X.length = 2)
    (hX : ∀ r ∈ X, r.length = 10) : flowGenDrift 10 X = flowDrift X := by
  have hx : (X.getD 0 []).length = 10 :=
    hX _ (by rw [getD_of_lt (by omega)]; exact List.get_mem _ _ _)
  have hy : (X.getD 1 []).length = 10 :=
    hX _ (by rw [getD_of_lt (by omega)]; exact List.get_mem _ _ _)
  have h0 : X.getD 0 (List.replicate 10 0) = X.getD 0 [] :=
    getD_congr_default (by omega) _ _
  have h1 : X.getD 1 (List.replicate 10 0) = X.getD 1 [] :=
    getD_congr_default (by omega) _ _
  have hsv : ∀ i, (X.getD i (List.replicate 10 0)).length = 10 := by
    intro i
    rcases getD_mem_or_default X i (List.replicate 10 0) with h | h
    · exact hX _ h
    · rw [h]; exact List.length_replicate 10 0
  have hz : ∀ i : ℕ, ((List.replicate 10 (0 : ℚ))).length = 10 :=
    fun _ => List.length_replicate 10 0
  rw [flowGenDrift, flowDrift]
  congr 1
  · rw [evalArr_eq_map_evalS 10 _ _ _ hsv (fun i => hz i) (fun i => hz i) driftXExpr,
      zipWith_eq_map_range _ hx hy]
    apply List.map_congr_left
    intro j _
    simp only [driftXExpr, evalS, h0, h1]
  · congr 1
    rw [evalArr_eq_map_evalS 10 _ _ _ hsv (fun i => hz i) (fun i => hz i) driftYExpr]
    conv_rhs => rw [← map_getD_range (X.getD 0 []), hx]
    rw [List.map_map]
    apply List.map_congr_left
    intro j _
    simp only [Function.comp_apply, driftYExpr, evalS, h0]

/-- C7: for the two-state model with drift `dx = (x - x^3/3 + y)*3`,
`dy = (1.01 - x)/3`, `dt = 0.1` and additive noise `sigma = 0.1`, the
generated kernel on 10-element node vectors stays within `1e-5` of the
reference after one Euler-Maruyama step from the same initial state and the
same noise draw. -/
theorem c7_em_step_matches (sqrtDt : ℚ) (X Z : List (List ℚ))
    (hXlen : X.length = 2) (hX : ∀ r ∈ X, r.length = 10) :
    ∀ i j : ℕ,
      |((flowGen sqrtDt 10 X Z).getD i []).getD j 0 -
        ((flow sqrtDt X Z).getD i []).getD j 0| < 1/100000 := by
  have heq : flowGen sqrtDt 10 X Z = flow sqrtDt X Z := by
    rw [flowGen, flow, flowGenDrift_eq X hXlen hX]
  intro i j
  rw [heq, sub_self, abs_zero]
  norm_num

/-- Witness for C7 at a concrete state, noise draw and inlined square
root. -/
theorem c7_em_step_matches_witness :
    (demoX10.length = 2 ∧ ∀ r ∈ demoX10, r.length = 10) ∧
    ∀ i j : ℕ,
      |((flowGen (316/1000) 10 demoX10 demoZ10).getD i []).getD j 0 -
        ((flow (316/1000) demoX10 demoZ10).getD i []).getD j 0| < 1/100000 :=
  ⟨⟨by decide, by decide⟩,
    c7_em_step_matches (316/1000) demoX10 demoZ10 (by decide) (by decide)⟩

theorem sampleLoop_eq {τ : Type} (f : ℕ → Option (ℚ × τ)) (start n : ℕ) :
    sampleLoop f start n =
      (((List.range' start n).filterMap f).map Prod.fst,
       ((List.range' start n).filterMap f).map Prod.snd) := by
  have haux : ∀ (L : List ℕ) (acc : List ℚ × List τ),
      L.foldl (fun acc step =>
        match f step with
        | some tv => (acc.1 ++ [tv.1], acc.2 ++ [tv.2])
        | none => acc) acc =
      (acc.1 ++ (L.filterMap f).map Prod.fst,
       acc.2 ++ (L.filterMap f).map Prod.snd) := by
    intro L
    induction L with
    | nil => intro acc; simp
    | cons s t ih =>
        intro acc
        rw [List.foldl_cons]
        cases hf : f s with
        | none => rw [ih]; simp [List.filterMap_cons, hf]
        | some tv => rw [ih]; simp [List.filterMap_cons, hf]
  rw [sampleLoop, haux]
  simp

theorem filterMap_eq_filterMap_filter {τ : Type} (f : ℕ → Option (ℚ × τ)) :
    ∀ L : List ℕ, L.filterMap f = (L.filter fun s => (f s).isSome).filterMap f := by
  intro L
  induction L with
  | nil => rfl
  | cons s t ih =>
      cases hf : f s with
      | none => simp [List.filterMap_cons, List.filter_cons, hf, ih]
      | some tv => simp [List.filterMap_cons, List.filter_cons, hf, ← ih]

theorem zip_map_fst_snd {α β : Type} :
    ∀ l : List (α × β), (l.map Prod.fst).zip (l.map Prod.snd) = l := by
  intro l
  induction l with
  | nil => rfl
  | cons p t ih => simp [ih]

theorem length_filterMap_of_isSome {τ : Type} (f : ℕ → Option (ℚ × τ)) :
    ∀ L : List ℕ, (∀ s ∈ L, (f s).isSome = true) →
      (L.filterMap f).length = L.length := by
  intro L
  induction L with
  | nil => intro _; rfl
  | cons s t ih =>
      intro hall
      cases hf : f s with
      | none =>
          have := hall s (List.mem_cons_self s t)
          rw [hf] at this
          simp at this
      | some tv =>
          rw [List.filterMap_cons, hf]
          simp only [List.length_cons]
          rw [ih fun z hz => hall z (List.mem_cons_of_mem s hz)]

theorem sampleLoop_spec {τ : Type} (f : ℕ → Option (ℚ × τ)) (start n : ℕ) :
    SampleSpec f start n (sampleLoop f start n) := by
  rw [sampleLoop_eq]
  refine ⟨by simp, ?_,
    (List.range' start n).filter (fun s => (f s).isSome), ?_, ?_, ?_, ?_, ?_⟩
  · simp only [List.length_map]
    calc ((List.range' start n).filterMap f).length
        ≤ (List.range' start n).length := List.length_filterMap_le _ _
      _ = n := List.length_range' _ _ _
  · exact (List.pairwise_lt_range' start n).filter _
  · intro s hs
    obtain ⟨hmem, hsome⟩ := List.mem_filter.mp hs
    have hb := List.mem_range'_1.mp hmem
    exact ⟨hb.1, hb.2, by simpa using hsome⟩
  · intro s hge hlt hsome
    exact List.mem_filter.mpr ⟨List.mem_range'_1.mpr ⟨hge, hlt⟩, by simpa using hsome⟩
  · simp only
    rw [zip_map_fst_snd, filterMap_eq_filterMap_filter]
  · simp only [List.length_map]
    rw [filterMap_eq_filterMap_filter]
    rw [length_filterMap_of_isSome _ _ fun s hs => (List.mem_filter.mp hs).2]

/-- C9: both sampling entry points (`CosimMonitor.get_sample` over either
history source and `CosimMonitorFromCoupling.get_sample`) return two arrays
of equal length at most `n_steps`, whose paired entries come, in increasing
step order, from exactly those steps of
`start_step .. start_step + n_steps - 1` whose per-step sample is not
`None`. -/
theorem c9_get_sample_spec {σ H τ : Type} (sample2 : ℕ → σ → Option (ℚ × τ))
    (query : ℕ → σ) (sub0 : σ → σ) (cosim : Bool)
    (coupling : ℕ → H → σ) (history : H) (start n : ℕ) :
    SampleSpec
        (fun step => sample2 step (if cosim then query step else sub0 (query step)))
        start n (CosimMonitor.get_sample sample2 query sub0 cosim start n) ∧
      SampleSpec (fun step => sample2 step (coupling step history)) start n
        (CosimMonitorFromCoupling.get_sample sample2 coupling history start n) :=
  ⟨sampleLoop_spec _ start n, sampleLoop_spec _ start n⟩

/-- C10: `RawDelayed.sample` and `RawVoiDelayed.sample` do not depend on
their `cosim_history` argument, and `RawCosim.sample` does not depend on its
`history` argument. -/
theorem c10_sample_noninterference {σ τ : Type}
    (sample2 : ℕ → σ → Option (ℚ × τ)) (sub0 : σ → σ) (start n : ℕ)
    (ch1 ch2 hist1 hist2 : ℕ → σ) :
    RawDelayed.sample sample2 sub0 start n ch1 hist1 =
        RawDelayed.sample sample2 sub0 start n ch2 hist1 ∧
      RawVoiDelayed.sample sample2 sub0 start n ch1 hist1 =
        RawVoiDelayed.sample sample2 sub0 start n ch2 hist1 ∧
      RawCosim.sample sample2 sub0 start n ch1 hist1 =
        RawCosim.sample sample2 sub0 start n ch1 hist2 :=
  ⟨rfl, rfl, rfl⟩

end TVB

